import Mathlib

/-!
Shallow embedding of the family chore-tracker server handlers
(`src/server/src/handlers/*.ts` and the unnamed handler files) over an
explicit relational state.  Timestamps are integers (milliseconds since
epoch); JavaScript `setHours(0,0,0,0)` day truncation is floor division
by the number of milliseconds per day.  Serial primary keys are modelled
with per-table counters carried in the database state.
-/

namespace ChoreTracker

/-- `task_type` enum from `db/schema.ts`. -/
inductive TaskType where
  | habit | chore | daily | weekly
deriving DecidableEq, Repr

/-- `task_status` enum from `db/schema.ts`. -/
inductive TaskStatus where
  | pending | completed | verified
deriving DecidableEq, Repr

/-- `frequency` enum from `db/schema.ts`. -/
inductive Frequency where
  | daily | weekly | monthly
deriving DecidableEq, Repr

/-- Row of `family_members` (`db/schema.ts`). -/
structure FamilyMember where
  id : Nat
  name : String
  email : String
  avatar_url : Option String
  created_at : Int
  updated_at : Int
deriving DecidableEq, Repr

/-- Row of `tasks` (`db/schema.ts`). -/
structure Task where
  id : Nat
  title : String
  description : Option String
  task_type : TaskType
  frequency : Frequency
  points : Int
  assigned_to : Nat
  created_by : Nat
  is_active : Bool
  created_at : Int
  updated_at : Int
deriving DecidableEq, Repr

/-- Row of `task_completions` (`db/schema.ts`). -/
structure TaskCompletion where
  id : Nat
  task_id : Nat
  family_member_id : Nat
  completed_at : Int
  status : TaskStatus
  proof_image_url : Option String
  notes : Option String
  verified_by : Option Nat
  verified_at : Option Int
  created_at : Int
deriving DecidableEq, Repr

/-- Row of `streaks` (`db/schema.ts`). -/
structure Streak where
  id : Nat
  family_member_id : Nat
  task_id : Nat
  current_streak : Int
  longest_streak : Int
  last_completion_date : Option Int
  created_at : Int
  updated_at : Int
deriving DecidableEq, Repr

/-- The relational store: the four tables plus the serial-key counters. -/
structure DB where
  familyMembers : List FamilyMember
  tasks : List Task
  taskCompletions : List TaskCompletion
  streaks : List Streak
  nextMemberId : Nat
  nextTaskId : Nat
  nextCompletionId : Nat
  nextStreakId : Nat
deriving DecidableEq, Repr

/-- `createTaskInputSchema` (`schema.ts`). -/
structure CreateTaskInput where
  title : String
  description : Option String
  task_type : TaskType
  frequency : Frequency
  points : Int
  assigned_to : Nat
  created_by : Nat
deriving DecidableEq, Repr

/-- `updateTaskInputSchema` (`schema.ts`): every field but `id` optional;
`description` is nullable and optional, hence doubly wrapped. -/
structure UpdateTaskInput where
  id : Nat
  title : Option String
  description : Option (Option String)
  task_type : Option TaskType
  frequency : Option Frequency
  points : Option Int
  assigned_to : Option Nat
  is_active : Option Bool
deriving DecidableEq, Repr

/-- `createTaskCompletionInputSchema` (`schema.ts`). -/
structure CreateTaskCompletionInput where
  task_id : Nat
  family_member_id : Nat
  proof_image_url : Option String
  notes : Option String
deriving DecidableEq, Repr

/-- `verifyTaskCompletionInputSchema` (`schema.ts`). -/
structure VerifyTaskCompletionInput where
  completion_id : Nat
  verified_by : Nat
  status : TaskStatus
deriving DecidableEq, Repr

/-- `getTaskCompletionsInputSchema` (`schema.ts`): all filters optional. -/
structure GetTaskCompletionsInput where
  task_id : Option Nat
  family_member_id : Option Nat
  date_from : Option Int
  date_to : Option Int
deriving DecidableEq, Repr

/-- Milliseconds per day, the `1000 * 60 * 60 * 24` of `complete_task.ts`. -/
def msPerDay : Int := 1000 * 60 * 60 * 24

/-- `setHours(0,0,0,0)`: truncate a timestamp to the start of its day. -/
def startOfDay (t : Int) : Int := msPerDay * Int.fdiv t msPerDay

/-- The calendar day index of a timestamp. -/
def dayOf (t : Int) : Int := Int.fdiv t msPerDay

/-- `Math.floor((completedDate.getTime() - lastCompletionDate.getTime()) / (1000*60*60*24))`
with both dates already truncated to midnight (`complete_task.ts`). -/
def daysDiff (completedAt lastAt : Int) : Int :=
  Int.fdiv (startOfDay completedAt - startOfDay lastAt) msPerDay

/-- The `select ... where (task_id = taskId and family_member_id = familyMemberId)`
query on `streaks` used by `updateStreak` in `complete_task.ts`. -/
def findStreaks (db : DB) (taskId familyMemberId : Nat) : List Streak :=
  db.streaks.filter (fun s => s.task_id = taskId ∧ s.family_member_id = familyMemberId)

/-- The `newCurrentStreak` computation of `updateStreak` (`complete_task.ts`):
starts at 1; with a non-null last completion date, a day difference of 1
increments the streak, 0 keeps it, anything else leaves the reset value 1. -/
def nextCurrentStreak (streak : Streak) (completedAt : Int) : Int :=
  match streak.last_completion_date with
  | none => 1
  | some last =>
    let d := daysDiff completedAt last
    if d = 1 then streak.current_streak + 1
    else if d = 0 then streak.current_streak
    else 1

/-- `updateStreak` (`complete_task.ts`): create a `(1, 1, completedAt)` row when
none exists for the pair, else recompute current/longest and update the row
found first, keyed by its `id`. -/
def updateStreak (db : DB) (taskId familyMemberId : Nat) (completedAt now : Int) : DB :=
  match findStreaks db taskId familyMemberId with
  | [] =>
    let row : Streak :=
      { id := db.nextStreakId, family_member_id := familyMemberId, task_id := taskId,
        current_streak := 1, longest_streak := 1, last_completion_date := some completedAt,
        created_at := now, updated_at := now }
    { db with streaks := db.streaks ++ [row], nextStreakId := db.nextStreakId + 1 }
  | streak :: _ =>
    let newCurrentStreak := nextCurrentStreak streak completedAt
    let newLongestStreak := max streak.longest_streak newCurrentStreak
    { db with streaks := db.streaks.map (fun s =>
        if s.id = streak.id then
          { s with
            current_streak := newCurrentStreak, longest_streak := newLongestStreak,
            last_completion_date := some completedAt, updated_at := now }
        else s) }

/-- `completeTask` (`complete_task.ts`): verify the task and the family member
exist, insert a completion row (status defaults to `completed`,
`completed_at` defaults to now), then run `updateStreak` with the new
completion's timestamp. -/
def completeTask (db : DB) (input : CreateTaskCompletionInput) (now : Int) :
    Except String (DB × TaskCompletion) :=
  let taskRows := db.tasks.filter (fun t => t.id = input.task_id)
  let memberRows := db.familyMembers.filter (fun fm => fm.id = input.family_member_id)
  if taskRows.length = 0 then
    Except.error ("Task with id " ++ toString input.task_id ++ " not found")
  else if memberRows.length = 0 then
    Except.error ("Family member with id " ++ toString input.family_member_id ++ " not found")
  else
    let completion : TaskCompletion :=
      { id := db.nextCompletionId, task_id := input.task_id,
        family_member_id := input.family_member_id, completed_at := now,
        status := TaskStatus.completed, proof_image_url := input.proof_image_url,
        notes := input.notes, verified_by := none, verified_at := none, created_at := now }
    let db1 : DB :=
      { db with
        taskCompletions := db.taskCompletions ++ [completion],
        nextCompletionId := db.nextCompletionId + 1 }
    Except.ok (updateStreak db1 input.task_id input.family_member_id completion.completed_at now,
      completion)

/-- `createTask` (`create_task.ts`): insert the task (active, fresh id), then
seed a `(0, 0, null)` streak row for the assignee. -/
def createTask (db : DB) (input : CreateTaskInput) (now : Int) : DB × Task :=
  let task : Task :=
    { id := db.nextTaskId, title := input.title, description := input.description,
      task_type := input.task_type, frequency := input.frequency, points := input.points,
      assigned_to := input.assigned_to, created_by := input.created_by, is_active := true,
      created_at := now, updated_at := now }
  let db1 : DB := { db with tasks := db.tasks ++ [task], nextTaskId := db.nextTaskId + 1 }
  let seed : Streak :=
    { id := db1.nextStreakId, family_member_id := input.assigned_to, task_id := task.id,
      current_streak := 0, longest_streak := 0, last_completion_date := none,
      created_at := now, updated_at := now }
  ({ db1 with streaks := db1.streaks ++ [seed], nextStreakId := db1.nextStreakId + 1 }, task)

/-- The field-by-field `updateData` merge of `updateTask` (unnamed handler):
each provided field overrides the stored one, `updated_at` always refreshed. -/
def applyTaskUpdate (input : UpdateTaskInput) (now : Int) (t : Task) : Task :=
  { t with
    title := input.title.getD t.title,
    description := input.description.getD t.description,
    task_type := input.task_type.getD t.task_type,
    frequency := input.frequency.getD t.frequency,
    points := input.points.getD t.points,
    assigned_to := input.assigned_to.getD t.assigned_to,
    is_active := input.is_active.getD t.is_active,
    updated_at := now }

/-- Whether the update reassigns the task:
`input.assigned_to !== undefined && input.assigned_to !== currentTask.assigned_to`. -/
def isReassignment (input : UpdateTaskInput) (currentTask : Task) : Prop :=
  match input.assigned_to with
  | some a => a ≠ currentTask.assigned_to
  | none => False

instance (input : UpdateTaskInput) (currentTask : Task) :
    Decidable (isReassignment input currentTask) := by
  unfold isReassignment
  cases input.assigned_to <;> infer_instance

/-- `updateTask` (unnamed handler file): look up the task, validate a new
assignee on reassignment, apply the partial update keyed by `id`, and on
reassignment seed a `(0, 0, null)` streak row for the new pair unless one
already exists. -/
def updateTask (db : DB) (input : UpdateTaskInput) (now : Int) :
    Except String (DB × Task) :=
  match db.tasks.filter (fun t => t.id = input.id) with
  | [] => Except.error ("Task with id " ++ toString input.id ++ " not found")
  | currentTask :: _ =>
    if isReassignment input currentTask ∧
        (db.familyMembers.filter
          (fun fm => fm.id = input.assigned_to.getD currentTask.assigned_to)).length = 0 then
      Except.error ("Family member with id " ++
        toString (input.assigned_to.getD currentTask.assigned_to) ++ " not found")
    else
      let newTasks := db.tasks.map (fun t =>
        if t.id = input.id then applyTaskUpdate input now t else t)
      -- `returning()[0]`: the updated row, i.e. the matched task after the merge
      let updatedTask := applyTaskUpdate input now currentTask
      let db1 : DB := { db with tasks := newTasks }
      if isReassignment input currentTask then
        let newAssignee := input.assigned_to.getD currentTask.assigned_to
        if findStreaks db1 input.id newAssignee = [] then
          let seed : Streak :=
            { id := db1.nextStreakId, family_member_id := newAssignee, task_id := input.id,
              current_streak := 0, longest_streak := 0, last_completion_date := none,
              created_at := now, updated_at := now }
          Except.ok ({ db1 with
            streaks := db1.streaks ++ [seed],
            nextStreakId := db1.nextStreakId + 1 }, updatedTask)
        else
          Except.ok (db1, updatedTask)
      else
        Except.ok (db1, updatedTask)

/-- `verifyTaskCompletion` (`verify_task_completion.ts`): check the completion
and the verifier exist, then set status/verified_by/verified_at on the row
keyed by the completion id, returning the updated row. -/
def verifyTaskCompletion (db : DB) (input : VerifyTaskCompletionInput) (now : Int) :
    Except String (DB × TaskCompletion) :=
  match db.taskCompletions.filter (fun c => c.id = input.completion_id) with
  | [] => Except.error ("Task completion with id " ++ toString input.completion_id ++ " not found")
  | existing :: _ =>
    if (db.familyMembers.filter (fun fm => fm.id = input.verified_by)).length = 0 then
      Except.error ("Family member with id " ++ toString input.verified_by ++ " not found")
    else
      let upd : TaskCompletion → TaskCompletion := fun c =>
        { c with
          status := input.status, verified_by := some input.verified_by,
          verified_at := some now }
      Except.ok ({ db with
        taskCompletions := db.taskCompletions.map (fun c =>
          if c.id = input.completion_id then upd c else c) }, upd existing)

/-- The rows a completion joins to:
`innerJoin(tasks, task_completions.task_id = tasks.id)` pairs each completion
with every task row whose id matches its `task_id`. -/
def completionsWithTasks (db : DB) : List (TaskCompletion × Task) :=
  db.taskCompletions.flatMap (fun c =>
    (db.tasks.filter (fun t => c.task_id = t.id)).map (fun t => (c, t)))

/-- The completion/task/family-member inner join of `getTaskCompletions`
(unnamed handler file); the select list projects back to the completion
columns, so each joined row is the completion itself. -/
def joinedCompletions (db : DB) : List TaskCompletion :=
  db.taskCompletions.flatMap (fun c =>
    (db.tasks.filter (fun t => c.task_id = t.id)).flatMap (fun _t =>
      (db.familyMembers.filter (fun fm => c.family_member_id = fm.id)).map (fun _fm => c)))

/-- The optional-filter conditions of `getTaskCompletions`: each given filter
must hold (`eq` on ids, `gte`/`lte` on `completed_at`); absent filters are
not applied. -/
def matchesCompletionFilters (input : GetTaskCompletionsInput) (c : TaskCompletion) : Prop :=
  (match input.task_id with
   | some v => c.task_id = v
   | none => True) ∧
  (match input.family_member_id with
   | some v => c.family_member_id = v
   | none => True) ∧
  (match input.date_from with
   | some v => v ≤ c.completed_at
   | none => True) ∧
  (match input.date_to with
   | some v => c.completed_at ≤ v
   | none => True)

instance (input : GetTaskCompletionsInput) (c : TaskCompletion) :
    Decidable (matchesCompletionFilters input c) := by
  unfold matchesCompletionFilters
  cases input.task_id <;> cases input.family_member_id <;>
    cases input.date_from <;> cases input.date_to <;> infer_instance

/-- `getTaskCompletions` (unnamed handler file): inner-join completions with
their task and family member, apply the optional filters, and order by
`completed_at` descending. -/
def getTaskCompletions (db : DB) (input : GetTaskCompletionsInput) : List TaskCompletion :=
  ((joinedCompletions db).filter (fun c => matchesCompletionFilters input c)).mergeSort
    (fun a b => decide (b.completed_at ≤ a.completed_at))

/-- JavaScript `Math.round`: round half toward positive infinity. -/
def jsRound (q : ℚ) : Int := ⌊q + 1 / 2⌋

/-- The record returned by `getFamilyMemberStats`
(`get_family_member_stats.ts`): the member row spread together with the five
derived metrics. -/
structure FamilyMemberStats where
  id : Nat
  name : String
  email : String
  avatar_url : Option String
  created_at : Int
  updated_at : Int
  total_points : Int
  tasks_completed : Nat
  current_streaks : Nat
  longest_streak : Int
  completion_rate : Int
deriving DecidableEq, Repr

/-- `getFamilyMemberStats` (`get_family_member_stats.ts`).  The SQL `sum`
returning null on an empty join and the `|| 0` null-coalescing both collapse
to plain sums/maxima with default 0; completion counts are row counts of the
corresponding filtered (joined) selects; the rate divides completed active
assigned completions by active assigned tasks, rounded, 0 when no
denominator. -/
def getFamilyMemberStats (db : DB) (familyMemberId : Nat) :
    Except String FamilyMemberStats :=
  match db.familyMembers.filter (fun fm => fm.id = familyMemberId) with
  | [] => Except.error "Family member not found"
  | familyMember :: _ =>
    let pointRows := (completionsWithTasks db).filter (fun ct =>
      ct.1.family_member_id = familyMemberId ∧ ct.1.status = TaskStatus.completed)
    let totalPoints := (pointRows.map (fun ct => ct.2.points)).sum
    let tasksCompleted := (db.taskCompletions.filter (fun c =>
      c.family_member_id = familyMemberId ∧ c.status = TaskStatus.completed)).length
    let allStreaks := db.streaks.filter (fun s => s.family_member_id = familyMemberId)
    let currentStreaks := (allStreaks.filter (fun s => 0 < s.current_streak)).length
    let longestStreak := ((allStreaks.map (fun s => s.longest_streak)).max?).getD 0
    let completedActiveTasks := ((completionsWithTasks db).filter (fun ct =>
      ct.1.family_member_id = familyMemberId ∧ ct.1.status = TaskStatus.completed ∧
        ct.2.assigned_to = familyMemberId ∧ ct.2.is_active = true)).length
    let totalAssignedTasks := (db.tasks.filter (fun t =>
      t.assigned_to = familyMemberId ∧ t.is_active = true)).length
    let completionRate : Int :=
      if 0 < totalAssignedTasks then
        jsRound ((completedActiveTasks : ℚ) / (totalAssignedTasks : ℚ) * 100)
      else 0
    Except.ok
      { id := familyMember.id, name := familyMember.name, email := familyMember.email,
        avatar_url := familyMember.avatar_url, created_at := familyMember.created_at,
        updated_at := familyMember.updated_at, total_points := totalPoints,
        tasks_completed := tasksCompleted, current_streaks := currentStreaks,
        longest_streak := longestStreak, completion_rate := completionRate }

/-- Iterate `completeTask` for one fixed input at the given sequence of
timestamps, threading the database, stopping at the first error. -/
def completeTaskRun (db : DB) (input : CreateTaskCompletionInput) :
    List Int → Except String DB
  | [] => Except.ok db
  | t :: rest =>
    match completeTask db input t with
    | Except.error e => Except.error e
    | Except.ok (db1, _) => completeTaskRun db1 input rest

/-- A message mentions an id when its decimal rendering occurs as a
contiguous substring. -/
def mentionsId (msg : String) (id : Nat) : Prop :=
  (toString id).data <:+: msg.data

/-- The row written back by the found-row branch of `updateStreak`. -/
def updatedStreakRow (streak : Streak) (completedAt now : Int) : Streak :=
  { streak with
    current_streak := nextCurrentStreak streak completedAt,
    longest_streak := max streak.longest_streak (nextCurrentStreak streak completedAt),
    last_completion_date := some completedAt,
    updated_at := now }

/-- Streak ids are below the serial counter and pairwise distinct. -/
def StreaksWF (db : DB) : Prop :=
  (∀ s ∈ db.streaks, s.id < db.nextStreakId) ∧
  db.streaks.Pairwise (fun a b => a.id ≠ b.id)

/-- Task ids are below the serial counter and pairwise distinct, and streak
rows only reference already-allocated task ids. -/
def TasksWF (db : DB) : Prop :=
  (∀ t ∈ db.tasks, t.id < db.nextTaskId) ∧
  db.tasks.Pairwise (fun a b => a.id ≠ b.id) ∧
  (∀ s ∈ db.streaks, s.task_id < db.nextTaskId)

/-- Fixture: a family member used to instantiate the theorems. -/
def fmA : FamilyMember :=
  { id := 1, name := "Alice", email := "alice@example.com", avatar_url := none,
    created_at := 0, updated_at := 0 }

/-- Fixture: an active task assigned to the fixture member. -/
def taskA : Task :=
  { id := 1, title := "Dishes", description := none, task_type := TaskType.chore,
    frequency := Frequency.daily, points := 10, assigned_to := 1, created_by := 1,
    is_active := true, created_at := 0, updated_at := 0 }

/-- Fixture: a database with one member and one task, no completions, no
streak rows. -/
def db0 : DB :=
  { familyMembers := [fmA], tasks := [taskA], taskCompletions := [], streaks := [],
    nextMemberId := 2, nextTaskId := 2, nextCompletionId := 1, nextStreakId := 1 }

/-- Fixture: the completion input for the fixture pair. -/
def inp0 : CreateTaskCompletionInput :=
  { task_id := 1, family_member_id := 1, proof_image_url := none, notes := none }

/-- The uniqueness invariant of the spec: at most one streak row per
(family member, task) pair. -/
def UniquePairs (db : DB) : Prop :=
  ∀ tid mid : Nat, (findStreaks db tid mid).length ≤ 1

/-- Fixture: a streak row recording one completion at time 5 (day 0). -/
def streakFix : Streak :=
  { id := 1, family_member_id := 1, task_id := 1, current_streak := 1,
    longest_streak := 1, last_completion_date := some 5, created_at := 5, updated_at := 5 }

/-- Fixture: the database after one completion of the fixture pair. -/
def db1fix : DB :=
  { familyMembers := [fmA], tasks := [taskA],
    taskCompletions :=
      [{ id := 1, task_id := 1, family_member_id := 1, completed_at := 5,
         status := TaskStatus.completed, proof_image_url := none, notes := none,
         verified_by := none, verified_at := none, created_at := 5 }],
    streaks := [streakFix],
    nextMemberId := 2, nextTaskId := 2, nextCompletionId := 2, nextStreakId := 2 }

/-- Fixture: a title-only task update. -/
def uinpW : UpdateTaskInput :=
  { id := 1, title := some "Trash", description := none, task_type := none,
    frequency := none, points := none, assigned_to := none, is_active := none }

/-- Fixture: the task row expected after applying `uinpW` at time 99. -/
def taskW1 : Task := { taskA with title := "Trash", updated_at := 99 }

/-- Fixture: the database expected after applying `uinpW` to `db1fix`. -/
def dbW1 : DB := { db1fix with tasks := [taskW1] }

/-- Fixture: a task-creation input assigning to the fixture member. -/
def cinpW : CreateTaskInput :=
  { title := "Lawn", description := none, task_type := TaskType.chore,
    frequency := Frequency.weekly, points := 5, assigned_to := 1, created_by := 1 }

/-- Fixture: a completion request for a task id that does not exist. -/
def cinpBad : CreateTaskCompletionInput :=
  { task_id := 42, family_member_id := 1, proof_image_url := none, notes := none }

/-- Fixture: a verification request for the completion recorded in `db1fix`. -/
def vinpFix : VerifyTaskCompletionInput :=
  { completion_id := 1, verified_by := 1, status := TaskStatus.verified }

/-- Fixture: a completions query with an inclusive date range. -/
def inpGTC : GetTaskCompletionsInput :=
  { task_id := none, family_member_id := none, date_from := some 0, date_to := some 10 }

theorem msPerDay_ne_zero : msPerDay ≠ 0 := by decide

/-- The day difference computed by `updateStreak` is the difference of
calendar-day indices. -/
theorem daysDiff_eq_dayOf_sub (a b : Int) : daysDiff a b = dayOf a - dayOf b := by
  unfold daysDiff startOfDay dayOf
  rw [← Int.mul_sub, Int.mul_fdiv_cancel_left _ msPerDay_ne_zero]

theorem updateStreak_tasks (db : DB) (tid mid : Nat) (ca now : Int) :
    (updateStreak db tid mid ca now).tasks = db.tasks := by
  unfold updateStreak
  cases hfd : findStreaks db tid mid <;> rfl

theorem updateStreak_familyMembers (db : DB) (tid mid : Nat) (ca now : Int) :
    (updateStreak db tid mid ca now).familyMembers = db.familyMembers := by
  unfold updateStreak
  cases hfd : findStreaks db tid mid <;> rfl

theorem updateStreak_taskCompletions (db : DB) (tid mid : Nat) (ca now : Int) :
    (updateStreak db tid mid ca now).taskCompletions = db.taskCompletions := by
  unfold updateStreak
  cases hfd : findStreaks db tid mid <;> rfl

/-- Fresh-pair branch of `updateStreak`: appends the `(1, 1, completedAt)` row,
which becomes the pair's only row. -/
theorem updateStreak_fresh (db : DB) (tid mid : Nat) (ca now : Int)
    (h : findStreaks db tid mid = []) :
    findStreaks (updateStreak db tid mid ca now) tid mid =
      [{ id := db.nextStreakId, family_member_id := mid, task_id := tid,
         current_streak := 1, longest_streak := 1, last_completion_date := some ca,
         created_at := now, updated_at := now }] := by
  unfold updateStreak
  rw [h]
  unfold findStreaks at h ⊢
  simp only [List.filter_append, h, List.nil_append]
  simp

theorem map_eq_self_of_mem {α : Type} {l : List α} {f : α → α}
    (h : ∀ a ∈ l, f a = a) : l.map f = l := by
  induction l with
  | nil => rfl
  | cons x xs ih =>
    rw [List.map_cons, h x (List.mem_cons_self _ _),
      ih (fun a ha => h a (List.mem_cons_of_mem _ ha))]

/-- Found-row branch of `updateStreak`: the pair's first row is replaced by
`updatedStreakRow`, the rest of the pair's rows (none, once uniqueness holds)
are untouched. -/
theorem updateStreak_found (db : DB) (tid mid : Nat) (ca now : Int) (s : Streak)
    (rest : List Streak) (hwf : StreaksWF db)
    (h : findStreaks db tid mid = s :: rest) :
    findStreaks (updateStreak db tid mid ca now) tid mid =
      updatedStreakRow s ca now :: rest := by
  have hpair : (findStreaks db tid mid).Pairwise (fun a b => a.id ≠ b.id) :=
    List.Pairwise.sublist (List.filter_sublist db.streaks) hwf.2
  rw [h, List.pairwise_cons] at hpair
  have hrest : ∀ x ∈ rest, s.id ≠ x.id := hpair.1
  unfold updateStreak
  rw [h]
  unfold findStreaks at h ⊢
  rw [List.filter_map]
  have hcong : List.filter
      ((fun x => decide (x.task_id = tid ∧ x.family_member_id = mid)) ∘ (fun x =>
        if x.id = s.id then
          { x with
            current_streak := nextCurrentStreak s ca,
            longest_streak := max s.longest_streak (nextCurrentStreak s ca),
            last_completion_date := some ca, updated_at := now }
        else x)) db.streaks =
      List.filter (fun x => decide (x.task_id = tid ∧ x.family_member_id = mid)) db.streaks := by
    apply List.filter_congr
    intro x _
    by_cases hx : x.id = s.id <;> simp [hx]
  rw [hcong, h]
  simp only [List.map_cons]
  congr 1
  apply map_eq_self_of_mem
  intro x hx
  simp [Ne.symm (hrest x hx)]

/-- `updateStreak` preserves streak-table well-formedness. -/
theorem updateStreak_wf (db : DB) (tid mid : Nat) (ca now : Int)
    (hwf : StreaksWF db) : StreaksWF (updateStreak db tid mid ca now) := by
  obtain ⟨hbound, hpw⟩ := hwf
  unfold updateStreak
  cases hfd : findStreaks db tid mid with
  | nil =>
    constructor
    · intro s hs
      simp only [List.mem_append, List.mem_singleton] at hs
      rcases hs with hs | hs
      · exact Nat.lt_succ_of_lt (hbound s hs)
      · rw [hs]
        exact Nat.lt_succ_self _

    · rw [List.pairwise_append]
      refine ⟨hpw, List.pairwise_singleton _ _, ?_⟩
      intro a ha b hb
      simp only [List.mem_singleton] at hb
      rw [hb]
      exact Nat.ne_of_lt (hbound a ha)
  | cons st rest =>
    constructor
    · intro s hs
      simp only [List.mem_map] at hs
      obtain ⟨x, hx, hux⟩ := hs
      have : s.id = x.id := by
        rw [← hux]
        by_cases hxi : x.id = st.id <;> simp [hxi]
      rw [this]
      exact hbound x hx
    · rw [List.pairwise_map]
      apply hpw.imp_of_mem
      intro a b _ _ hab
      by_cases ha : a.id = st.id <;> by_cases hb : b.id = st.id <;>
        simpa [ha, hb] using hab

theorem filter_ne_nil_of_exists {α : Type} (l : List α) (p : α → Bool)
    (h : ∃ a ∈ l, p a = true) : ¬(l.filter p).length = 0 := by
  rw [List.length_eq_zero, List.filter_eq_nil_iff]
  push_neg
  exact h

/-- When the task and the family member exist, `completeTask` succeeds,
inserting one completion row stamped `now` and handing its timestamp to
`updateStreak`. -/
theorem completeTask_ok (db : DB) (inp : CreateTaskCompletionInput) (now : Int)
    (htask : ∃ t ∈ db.tasks, t.id = inp.task_id)
    (hmem : ∃ fm ∈ db.familyMembers, fm.id = inp.family_member_id) :
    completeTask db inp now = Except.ok
      (updateStreak
        { db with
          taskCompletions := db.taskCompletions ++
            [{ id := db.nextCompletionId, task_id := inp.task_id,
               family_member_id := inp.family_member_id, completed_at := now,
               status := TaskStatus.completed, proof_image_url := inp.proof_image_url,
               notes := inp.notes, verified_by := none, verified_at := none,
               created_at := now }],
          nextCompletionId := db.nextCompletionId + 1 }
        inp.task_id inp.family_member_id now now,
       { id := db.nextCompletionId, task_id := inp.task_id,
         family_member_id := inp.family_member_id, completed_at := now,
         status := TaskStatus.completed, proof_image_url := inp.proof_image_url,
         notes := inp.notes, verified_by := none, verified_at := none,
         created_at := now }) := by
  have ht : ¬(db.tasks.filter (fun t => t.id = inp.task_id)).length = 0 := by
    apply filter_ne_nil_of_exists
    obtain ⟨t, h1, h2⟩ := htask
    exact ⟨t, h1, by simp [h2]⟩
  have hm : ¬(db.familyMembers.filter (fun fm => fm.id = inp.family_member_id)).length = 0 := by
    apply filter_ne_nil_of_exists
    obtain ⟨fm, h1, h2⟩ := hmem
    exact ⟨fm, h1, by simp [h2]⟩
  unfold completeTask
  simp only [if_neg ht, if_neg hm]

/-- A single successful `completeTask` on a pair holding the row `s` first:
the pair's row list becomes `updatedStreakRow s now now :: rest`. -/
theorem completeTask_found_pair (db : DB) (inp : CreateTaskCompletionInput) (now : Int)
    (s : Streak) (rest : List Streak) (hwf : StreaksWF db)
    (htask : ∃ t ∈ db.tasks, t.id = inp.task_id)
    (hmem : ∃ fm ∈ db.familyMembers, fm.id = inp.family_member_id)
    (hpair : findStreaks db inp.task_id inp.family_member_id = s :: rest) :
    ∃ db1 c, completeTask db inp now = Except.ok (db1, c) ∧
      findStreaks db1 inp.task_id inp.family_member_id =
        updatedStreakRow s now now :: rest ∧
      db1.tasks = db.tasks ∧ db1.familyMembers = db.familyMembers ∧ StreaksWF db1 := by
  refine ⟨_, _, completeTask_ok db inp now htask hmem, ?_, ?_, ?_, ?_⟩
  · exact updateStreak_found _ _ _ _ _ _ _ hwf hpair
  · exact updateStreak_tasks _ _ _ _ _
  · exact updateStreak_familyMembers _ _ _ _ _
  · exact updateStreak_wf _ _ _ _ _ hwf

/-- A single successful `completeTask` on a pair with no streak row yet:
the pair gets exactly the `(1, 1, now)` row. -/
theorem completeTask_fresh_pair (db : DB) (inp : CreateTaskCompletionInput) (now : Int)
    (hwf : StreaksWF db)
    (htask : ∃ t ∈ db.tasks, t.id = inp.task_id)
    (hmem : ∃ fm ∈ db.familyMembers, fm.id = inp.family_member_id)
    (hpair : findStreaks db inp.task_id inp.family_member_id = []) :
    ∃ db1 c s1, completeTask db inp now = Except.ok (db1, c) ∧
      findStreaks db1 inp.task_id inp.family_member_id = [s1] ∧
      s1.current_streak = 1 ∧ s1.longest_streak = 1 ∧
      s1.last_completion_date = some now ∧
      db1.tasks = db.tasks ∧ db1.familyMembers = db.familyMembers ∧ StreaksWF db1 := by
  refine ⟨_, _, _, completeTask_ok db inp now htask hmem,
    updateStreak_fresh _ _ _ _ _ hpair, rfl, rfl, rfl, ?_, ?_, ?_⟩
  · exact updateStreak_tasks _ _ _ _ _
  · exact updateStreak_familyMembers _ _ _ _ _
  · exact updateStreak_wf _ _ _ _ _ hwf

/-- Consecutive-day run: starting from a unique pair row whose current and
longest streaks agree and whose last completion date is `tl`, a run of
completions on successive calendar days advances both streaks by the number
of completions. -/
theorem completeTaskRun_consecutive (inp : CreateTaskCompletionInput) (times : List Int) :
    ∀ (db : DB) (s : Streak) (tl : Int),
    StreaksWF db →
    (∃ t ∈ db.tasks, t.id = inp.task_id) →
    (∃ fm ∈ db.familyMembers, fm.id = inp.family_member_id) →
    findStreaks db inp.task_id inp.family_member_id = [s] →
    s.current_streak = s.longest_streak →
    s.last_completion_date = some tl →
    List.Chain' (fun a b => dayOf b = dayOf a + 1) (tl :: times) →
    ∃ db1 s1, completeTaskRun db inp times = Except.ok db1 ∧
      findStreaks db1 inp.task_id inp.family_member_id = [s1] ∧
      s1.current_streak = s.current_streak + times.length ∧
      s1.longest_streak = s.longest_streak + times.length ∧
      s1.last_completion_date = some (times.getLastD tl) := by
  induction times with
  | nil =>
    intro db s tl hwf htask hmem hpair hcl hlast _
    exact ⟨db, s, rfl, hpair, by simp, by simp, by simpa using hlast⟩
  | cons t0 rest ih =>
    intro db s tl hwf htask hmem hpair hcl hlast hchain
    rw [List.chain'_cons] at hchain
    obtain ⟨hday, hchain'⟩ := hchain
    obtain ⟨db1, c, hok, hfs, htasks, hmems, hwf1⟩ :=
      completeTask_found_pair db inp t0 s [] hwf htask hmem hpair
    have hcur : (updatedStreakRow s t0 t0).current_streak = s.current_streak + 1 := by
      simp [updatedStreakRow, nextCurrentStreak, hlast, daysDiff_eq_dayOf_sub, hday]
    have hlong : (updatedStreakRow s t0 t0).longest_streak = s.longest_streak + 1 := by
      simp only [updatedStreakRow]
      have : nextCurrentStreak s t0 = s.current_streak + 1 := by
        simp [nextCurrentStreak, hlast, daysDiff_eq_dayOf_sub, hday]
      rw [this, hcl]
      exact max_eq_right (by omega)
    obtain ⟨db2, s2, hrun, hfs2, hc2, hl2, hld2⟩ :=
      ih db1 (updatedStreakRow s t0 t0) t0 hwf1
        (htasks ▸ htask) (hmems ▸ hmem) hfs (by rw [hcur, hlong, hcl]) rfl hchain'
    refine ⟨db2, s2, ?_, hfs2, ?_, ?_, ?_⟩
    · unfold completeTaskRun
      rw [hok]
      exact hrun
    · rw [hc2, hcur]
      simp
      omega
    · rw [hl2, hlong]
      simp
      omega
    · rw [hld2, List.getLastD_cons]

/-- C1: for a (member, task) pair with no prior streak row, after `N`
`completeTask` calls whose completion timestamps fall on `N` consecutive
calendar days (one per day, no gaps), the pair's streak row has
`current_streak = N` and `longest_streak = N`. -/
theorem streak_counts_after_consecutive_daily_completions
    (db : DB) (inp : CreateTaskCompletionInput) (times : List Int)
    (hwf : StreaksWF db)
    (htask : ∃ t ∈ db.tasks, t.id = inp.task_id)
    (hmem : ∃ fm ∈ db.familyMembers, fm.id = inp.family_member_id)
    (hfresh : findStreaks db inp.task_id inp.family_member_id = [])
    (hchain : List.Chain' (fun a b => dayOf b = dayOf a + 1) times)
    (hne : times ≠ []) :
    ∃ db1 s1, completeTaskRun db inp times = Except.ok db1 ∧
      findStreaks db1 inp.task_id inp.family_member_id = [s1] ∧
      s1.current_streak = times.length ∧
      s1.longest_streak = times.length := by
  match times, hne, hchain with
  | t0 :: rest, _, hchain =>
    obtain ⟨db1, c, s1, hok, hfs, hc1, hl1, hld1, htasks, hmems, hwf1⟩ :=
      completeTask_fresh_pair db inp t0 hwf htask hmem hfresh
    obtain ⟨db2, s2, hrun, hfs2, hc2, hl2, _⟩ :=
      completeTaskRun_consecutive inp rest db1 s1 t0 hwf1 (htasks ▸ htask) (hmems ▸ hmem)
        hfs (by rw [hc1, hl1]) hld1 hchain
    refine ⟨db2, s2, ?_, hfs2, ?_, ?_⟩
    · unfold completeTaskRun
      rw [hok]
      exact hrun
    · rw [hc2, hc1]
      simp
      omega
    · rw [hl2, hl1]
      simp
      omega

/-- Witness for C1 at a concrete database: two completions on days 0 and 1
yield current and longest streak 2. -/
theorem streak_counts_after_consecutive_daily_completions_witness :
    StreaksWF db0 ∧
    (∃ t ∈ db0.tasks, t.id = inp0.task_id) ∧
    (∃ fm ∈ db0.familyMembers, fm.id = inp0.family_member_id) ∧
    findStreaks db0 inp0.task_id inp0.family_member_id = [] ∧
    List.Chain' (fun a b => dayOf b = dayOf a + 1) [0, msPerDay] ∧
    (∃ db1 s1, completeTaskRun db0 inp0 [0, msPerDay] = Except.ok db1 ∧
      findStreaks db1 inp0.task_id inp0.family_member_id = [s1] ∧
      s1.current_streak = 2 ∧ s1.longest_streak = 2) := by
  have hwf : StreaksWF db0 := ⟨by simp [db0], by simp [db0]⟩
  have htask : ∃ t ∈ db0.tasks, t.id = inp0.task_id := ⟨taskA, by decide⟩
  have hmem : ∃ fm ∈ db0.familyMembers, fm.id = inp0.family_member_id := ⟨fmA, by decide⟩
  have hfresh : findStreaks db0 inp0.task_id inp0.family_member_id = [] := by decide
  have hchain : List.Chain' (fun a b => dayOf b = dayOf a + 1) [0, msPerDay] :=
    List.chain'_cons.mpr ⟨by decide, List.chain'_singleton _⟩
  refine ⟨hwf, htask, hmem, hfresh, hchain, ?_⟩
  have h := streak_counts_after_consecutive_daily_completions db0 inp0 [0, msPerDay]
    hwf htask hmem hfresh hchain (by decide)
  simpa using h

/-- C2: a repeat completion on the same calendar day as the stored
`last_completion_date` leaves `current_streak` unchanged while still moving
`last_completion_date` to the new completion timestamp. -/
theorem same_day_repeat_completion
    (db : DB) (inp : CreateTaskCompletionInput) (now : Int) (s : Streak) (tl : Int)
    (hwf : StreaksWF db)
    (htask : ∃ t ∈ db.tasks, t.id = inp.task_id)
    (hmem : ∃ fm ∈ db.familyMembers, fm.id = inp.family_member_id)
    (hpair : findStreaks db inp.task_id inp.family_member_id = [s])
    (hlast : s.last_completion_date = some tl)
    (hday : dayOf now = dayOf tl) :
    ∃ db1 c s1, completeTask db inp now = Except.ok (db1, c) ∧
      findStreaks db1 inp.task_id inp.family_member_id = [s1] ∧
      s1.current_streak = s.current_streak ∧
      s1.last_completion_date = some now := by
  obtain ⟨db1, c, hok, hfs, _, _, _⟩ :=
    completeTask_found_pair db inp now s [] hwf htask hmem hpair
  refine ⟨db1, c, _, hok, hfs, ?_, rfl⟩
  simp [updatedStreakRow, nextCurrentStreak, hlast, daysDiff_eq_dayOf_sub, hday]

/-- Witness for C2: a second completion later on day 0 keeps the streak at 1
and moves the stored timestamp. -/
theorem same_day_repeat_completion_witness :
    findStreaks db1fix inp0.task_id inp0.family_member_id = [streakFix] ∧
    streakFix.last_completion_date = some 5 ∧
    dayOf 7 = dayOf 5 ∧
    (∃ db1 c s1, completeTask db1fix inp0 7 = Except.ok (db1, c) ∧
      findStreaks db1 inp0.task_id inp0.family_member_id = [s1] ∧
      s1.current_streak = streakFix.current_streak ∧
      s1.last_completion_date = some 7) := by
  refine ⟨by decide, by decide, by decide, ?_⟩
  exact same_day_repeat_completion db1fix inp0 7 streakFix 5
    ⟨by decide, by simp [db1fix]⟩ ⟨taskA, by decide⟩ ⟨fmA, by decide⟩
    (by decide) (by decide) (by decide)

/-- C3: with an existing row and a non-null last completion date, a
completion whose whole-day difference from the stored day is above 1 or
negative resets `current_streak` to 1; `longest_streak` (at least 1 in any
reachable state with a recorded completion) stays at its prior maximum. -/
theorem gap_or_out_of_order_resets_current_streak
    (db : DB) (inp : CreateTaskCompletionInput) (now : Int) (s : Streak) (tl : Int)
    (hwf : StreaksWF db)
    (htask : ∃ t ∈ db.tasks, t.id = inp.task_id)
    (hmem : ∃ fm ∈ db.familyMembers, fm.id = inp.family_member_id)
    (hpair : findStreaks db inp.task_id inp.family_member_id = [s])
    (hlast : s.last_completion_date = some tl)
    (hlongest : 1 ≤ s.longest_streak)
    (hday : 1 < dayOf now - dayOf tl ∨ dayOf now - dayOf tl < 0) :
    ∃ db1 c s1, completeTask db inp now = Except.ok (db1, c) ∧
      findStreaks db1 inp.task_id inp.family_member_id = [s1] ∧
      s1.current_streak = 1 ∧
      s1.longest_streak = s.longest_streak := by
  obtain ⟨db1, c, hok, hfs, _, _, _⟩ :=
    completeTask_found_pair db inp now s [] hwf htask hmem hpair
  have hnext : nextCurrentStreak s now = 1 := by
    have h1 : ¬(dayOf now - dayOf tl = 1) := by omega
    have h0 : ¬(dayOf now - dayOf tl = 0) := by omega
    simp [nextCurrentStreak, hlast, daysDiff_eq_dayOf_sub, h1, h0]
  refine ⟨db1, c, _, hok, hfs, ?_, ?_⟩
  · simp [updatedStreakRow, hnext]
  · simp [updatedStreakRow, hnext]
    omega

/-- Witness for C3: with the last completion on day 0, a completion on day 2
resets the streak to 1 and keeps longest at 1. -/
theorem gap_or_out_of_order_resets_current_streak_witness :
    findStreaks db1fix inp0.task_id inp0.family_member_id = [streakFix] ∧
    streakFix.last_completion_date = some 5 ∧
    1 ≤ streakFix.longest_streak ∧
    1 < dayOf (2 * msPerDay) - dayOf 5 ∧
    (∃ db1 c s1, completeTask db1fix inp0 (2 * msPerDay) = Except.ok (db1, c) ∧
      findStreaks db1 inp0.task_id inp0.family_member_id = [s1] ∧
      s1.current_streak = 1 ∧
      s1.longest_streak = streakFix.longest_streak) := by
  refine ⟨by decide, by decide, by decide, by decide, ?_⟩
  exact gap_or_out_of_order_resets_current_streak db1fix inp0 (2 * msPerDay) streakFix 5
    ⟨by decide, by simp [db1fix]⟩ ⟨taskA, by decide⟩ ⟨fmA, by decide⟩
    (by decide) (by decide) (by decide) (Or.inl (by decide))

/-- C4: one completion event on a pair with an existing row sets the new
`longest_streak` to `max` of the previous `longest_streak` and the new
`current_streak`, so `longest_streak` never decreases. -/
theorem longest_streak_monotone_per_completion
    (db : DB) (inp : CreateTaskCompletionInput) (now : Int) (s : Streak) (rest : List Streak)
    (hwf : StreaksWF db)
    (htask : ∃ t ∈ db.tasks, t.id = inp.task_id)
    (hmem : ∃ fm ∈ db.familyMembers, fm.id = inp.family_member_id)
    (hpair : findStreaks db inp.task_id inp.family_member_id = s :: rest) :
    ∃ db1 c s1, completeTask db inp now = Except.ok (db1, c) ∧
      findStreaks db1 inp.task_id inp.family_member_id = s1 :: rest ∧
      s1.longest_streak = max s.longest_streak s1.current_streak ∧
      s.longest_streak ≤ s1.longest_streak := by
  obtain ⟨db1, c, hok, hfs, _, _, _⟩ :=
    completeTask_found_pair db inp now s rest hwf htask hmem hpair
  exact ⟨db1, c, _, hok, hfs, rfl, le_max_left _ _⟩

/-- Witness for C4: a completion at time 9 (same day) on the concrete
database keeps `longest_streak = max 1 1`. -/
theorem longest_streak_monotone_per_completion_witness :
    findStreaks db1fix inp0.task_id inp0.family_member_id = [streakFix] ∧
    (∃ db1 c s1, completeTask db1fix inp0 9 = Except.ok (db1, c) ∧
      findStreaks db1 inp0.task_id inp0.family_member_id = [s1] ∧
      s1.longest_streak = max streakFix.longest_streak s1.current_streak ∧
      streakFix.longest_streak ≤ s1.longest_streak) := by
  refine ⟨by decide, ?_⟩
  exact longest_streak_monotone_per_completion db1fix inp0 9 streakFix []
    ⟨by decide, by simp [db1fix]⟩ ⟨taskA, by decide⟩ ⟨fmA, by decide⟩ (by decide)

theorem eq_of_mem_pairwise_ne {α β : Type} (f : α → β) {l : List α}
    (h : l.Pairwise (fun a b => f a ≠ f b)) :
    ∀ a ∈ l, ∀ b ∈ l, f a = f b → a = b := by
  induction l with
  | nil => intro a ha; simp at ha
  | cons x tl ih =>
    rw [List.pairwise_cons] at h
    intro a ha b hb hfe
    rcases List.mem_cons.mp ha with ha1 | ha1 <;> rcases List.mem_cons.mp hb with hb1 | hb1
    · rw [ha1, hb1]
    · subst ha1
      exact absurd hfe (h.1 b hb1)
    · subst hb1
      exact absurd hfe.symm (h.1 a ha1)
    · exact ih h.2 a ha1 b hb1 hfe

theorem findStreaks_set_tasks (db : DB) (X : List Task) (tid mid : Nat) :
    findStreaks { db with tasks := X } tid mid = findStreaks db tid mid := rfl

theorem exists_of_isReassignment {input : UpdateTaskInput} {t : Task}
    (h : isReassignment input t) :
    ∃ a, input.assigned_to = some a ∧ a ≠ t.assigned_to := by
  unfold isReassignment at h
  cases ha : input.assigned_to with
  | none => rw [ha] at h; exact absurd h not_false
  | some a => rw [ha] at h; exact ⟨a, rfl, h⟩

/-- Effect inventory of a successful `updateTask`: members and completions are
untouched, the task table is the keyed partial update, and the streak table is
unchanged except for at most one seeded `(0, 0, null)` row for the new
assignee of a reassignment that had no streak row yet. -/
theorem updateTask_ok_inv (db : DB) (input : UpdateTaskInput) (now : Int)
    (db1 : DB) (u : Task) (h : updateTask db input now = Except.ok (db1, u)) :
    db1.familyMembers = db.familyMembers ∧
    db1.taskCompletions = db.taskCompletions ∧
    db1.tasks = db.tasks.map (fun t =>
      if t.id = input.id then applyTaskUpdate input now t else t) ∧
    (db1.streaks = db.streaks ∨
      ∃ a, input.assigned_to = some a ∧ findStreaks db input.id a = [] ∧
        db1.streaks = db.streaks ++
          [{ id := db.nextStreakId, family_member_id := a, task_id := input.id,
             current_streak := 0, longest_streak := 0, last_completion_date := none,
             created_at := now, updated_at := now }]) := by
  unfold updateTask at h
  split at h
  next => simp at h
  next currentTask rest hcur =>
    split at h
    next => simp at h
    next hcond =>
      split at h
      next hre =>
        obtain ⟨a, ha, hane⟩ := exists_of_isReassignment hre
        simp only [] at h
        split at h
        next hfs =>
          rw [Except.ok.injEq, Prod.mk.injEq] at h
          obtain ⟨hdb, _⟩ := h
          subst hdb
          refine ⟨rfl, rfl, rfl, Or.inr ⟨a, ha, ?_, ?_⟩⟩
          · rw [findStreaks_set_tasks, ha] at hfs
            simpa using hfs
          · simp [ha]
        next hfs =>
          rw [Except.ok.injEq, Prod.mk.injEq] at h
          obtain ⟨hdb, _⟩ := h
          subst hdb
          exact ⟨rfl, rfl, rfl, Or.inl rfl⟩
      next hre =>
        simp only [] at h
        rw [Except.ok.injEq, Prod.mk.injEq] at h
        obtain ⟨hdb, _⟩ := h
        subst hdb
        exact ⟨rfl, rfl, rfl, Or.inl rfl⟩

/-- Reassignment to a member with no streak row for the task: `updateTask`
succeeds and appends exactly one `(0, 0, null)` seed row. -/
theorem updateTask_reassign_insert (db : DB) (input : UpdateTaskInput) (now : Int)
    (currentTask : Task) (rest : List Task) (a : Nat)
    (hcur : db.tasks.filter (fun t => t.id = input.id) = currentTask :: rest)
    (ha : input.assigned_to = some a)
    (hne : a ≠ currentTask.assigned_to)
    (hmem : ∃ fm ∈ db.familyMembers, fm.id = a)
    (hno : findStreaks db input.id a = []) :
    updateTask db input now = Except.ok
      ({ db with
         tasks := db.tasks.map (fun t =>
           if t.id = input.id then applyTaskUpdate input now t else t),
         streaks := db.streaks ++
           [{ id := db.nextStreakId, family_member_id := a, task_id := input.id,
              current_streak := 0, longest_streak := 0, last_completion_date := none,
              created_at := now, updated_at := now }],
         nextStreakId := db.nextStreakId + 1 },
       applyTaskUpdate input now currentTask) := by
  have hmemlen : ¬(db.familyMembers.filter
      (fun fm => fm.id = input.assigned_to.getD currentTask.assigned_to)).length = 0 := by
    rw [ha]
    simp only [Option.getD_some]
    apply filter_ne_nil_of_exists
    obtain ⟨fm, h1, h2⟩ := hmem
    exact ⟨fm, h1, by simp [h2]⟩
  have hre : isReassignment input currentTask := by
    unfold isReassignment
    rw [ha]
    exact hne
  have hfs : findStreaks
      { db with tasks := db.tasks.map (fun t =>
          if t.id = input.id then applyTaskUpdate input now t else t) }
      input.id (input.assigned_to.getD currentTask.assigned_to) = [] := by
    rw [findStreaks_set_tasks, ha]
    simpa using hno
  unfold updateTask
  simp only [hcur, if_neg (fun hc => hmemlen (And.right hc)), if_pos hre, if_pos hfs]
  simp [ha]

/-- The pair of rows produced by `createTask`: the new task and its seeded
`(0, 0, null)` streak row appended to the old tables. -/
theorem createTask_result (db : DB) (input : CreateTaskInput) (now : Int) :
    createTask db input now =
      ({ db with
         tasks := db.tasks ++
           [{ id := db.nextTaskId, title := input.title, description := input.description,
              task_type := input.task_type, frequency := input.frequency,
              points := input.points, assigned_to := input.assigned_to,
              created_by := input.created_by, is_active := true,
              created_at := now, updated_at := now }],
         streaks := db.streaks ++
           [{ id := db.nextStreakId, family_member_id := input.assigned_to,
              task_id := db.nextTaskId, current_streak := 0, longest_streak := 0,
              last_completion_date := none, created_at := now, updated_at := now }],
         nextTaskId := db.nextTaskId + 1,
         nextStreakId := db.nextStreakId + 1 },
       { id := db.nextTaskId, title := input.title, description := input.description,
         task_type := input.task_type, frequency := input.frequency,
         points := input.points, assigned_to := input.assigned_to,
         created_by := input.created_by, is_active := true,
         created_at := now, updated_at := now }) := rfl

/-- No old streak row can collide with a row seeded for a freshly allocated
task id. -/
theorem filter_pair_fresh_task (db : DB) (mid : Nat)
    (hbound : ∀ s ∈ db.streaks, s.task_id < db.nextTaskId) :
    db.streaks.filter
      (fun s => s.task_id = db.nextTaskId ∧ s.family_member_id = mid) = [] := by
  rw [List.filter_eq_nil_iff]
  intro s hs
  simp only [decide_eq_true_eq, not_and]
  intro hteq
  exact absurd hteq (Nat.ne_of_lt (hbound s hs))

/-- Appending a streak row for a pair that has no row yet preserves the
at-most-one-row-per-pair invariant (stated on raw streak lists). -/
theorem filter_pair_append_le_one (l : List Streak) (x : Streak)
    (hu : ∀ tid mid : Nat,
      (l.filter (fun s => s.task_id = tid ∧ s.family_member_id = mid)).length ≤ 1)
    (hx : l.filter (fun s =>
      s.task_id = x.task_id ∧ s.family_member_id = x.family_member_id) = []) :
    ∀ tid mid : Nat,
      ((l ++ [x]).filter (fun s => s.task_id = tid ∧ s.family_member_id = mid)).length ≤ 1 := by
  intro tid mid
  rw [List.filter_append, List.length_append]
  by_cases hp : x.task_id = tid ∧ x.family_member_id = mid
  · obtain ⟨h1, h2⟩ := hp
    subst h1
    subst h2
    rw [hx]
    simpa using List.length_filter_le _ [x]
  · have hone : (([x] : List Streak).filter
        (fun s => s.task_id = tid ∧ s.family_member_id = mid)) = [] := by
      simp only [List.filter_eq_nil_iff, List.mem_singleton, decide_eq_true_eq]
      intro s hs
      rw [hs]
      exact hp
    rw [hone]
    simpa using hu tid mid

/-- C5: `createTask` seeds exactly one `(0, 0, null)` streak row for the new
task's assignee, which is then that pair's unique row; `updateTask`
reassigning to a member with no streak row for the task succeeds and inserts
exactly one new `(0, 0, null)` row; a repeat update targeting a member that
already has the row inserts nothing; both operations preserve the
at-most-one-streak-row-per-pair invariant. -/
theorem task_creation_and_reassignment_seed_streaks
    (db : DB) (cinput : CreateTaskInput) (uinput : UpdateTaskInput) (now : Int)
    (hbound : ∀ s ∈ db.streaks, s.task_id < db.nextTaskId)
    (hu : UniquePairs db) :
    ((createTask db cinput now).1.streaks = db.streaks ++
        [{ id := db.nextStreakId, family_member_id := cinput.assigned_to,
           task_id := db.nextTaskId, current_streak := 0, longest_streak := 0,
           last_completion_date := none, created_at := now, updated_at := now }] ∧
      findStreaks (createTask db cinput now).1 (createTask db cinput now).2.id
          cinput.assigned_to =
        [{ id := db.nextStreakId, family_member_id := cinput.assigned_to,
           task_id := db.nextTaskId, current_streak := 0, longest_streak := 0,
           last_completion_date := none, created_at := now, updated_at := now }] ∧
      UniquePairs (createTask db cinput now).1) ∧
    (∀ currentTask rest a,
      db.tasks.filter (fun t => t.id = uinput.id) = currentTask :: rest →
      uinput.assigned_to = some a → a ≠ currentTask.assigned_to →
      (∃ fm ∈ db.familyMembers, fm.id = a) →
      findStreaks db uinput.id a = [] →
      ∃ db1, updateTask db uinput now =
          Except.ok (db1, applyTaskUpdate uinput now currentTask) ∧
        db1.streaks = db.streaks ++
          [{ id := db.nextStreakId, family_member_id := a, task_id := uinput.id,
             current_streak := 0, longest_streak := 0, last_completion_date := none,
             created_at := now, updated_at := now }]) ∧
    (∀ a db1 u, uinput.assigned_to = some a →
      updateTask db uinput now = Except.ok (db1, u) →
      findStreaks db uinput.id a ≠ [] → db1.streaks = db.streaks) ∧
    (∀ db1 u, updateTask db uinput now = Except.ok (db1, u) → UniquePairs db1) := by
  refine ⟨⟨?_, ?_, ?_⟩, ?_, ?_, ?_⟩
  · rw [createTask_result]
  · rw [createTask_result]
    show ((db.streaks ++
        [({ id := db.nextStreakId, family_member_id := cinput.assigned_to,
            task_id := db.nextTaskId, current_streak := 0, longest_streak := 0,
            last_completion_date := none, created_at := now, updated_at := now } : Streak)]).filter
      (fun s => s.task_id = db.nextTaskId ∧ s.family_member_id = cinput.assigned_to)) = _
    rw [List.filter_append, filter_pair_fresh_task db cinput.assigned_to hbound]
    simp
  · rw [createTask_result]
    intro tid mid
    show ((db.streaks ++
        [({ id := db.nextStreakId, family_member_id := cinput.assigned_to,
            task_id := db.nextTaskId, current_streak := 0, longest_streak := 0,
            last_completion_date := none, created_at := now, updated_at := now } : Streak)]).filter
      (fun s => s.task_id = tid ∧ s.family_member_id = mid)).length ≤ 1
    exact filter_pair_append_le_one db.streaks _ hu
      (filter_pair_fresh_task db cinput.assigned_to hbound) tid mid
  · intro currentTask rest a hcur ha hne hmem hno
    exact ⟨_, updateTask_reassign_insert db uinput now currentTask rest a
      hcur ha hne hmem hno, rfl⟩
  · intro a db1 u ha hok hne
    obtain ⟨_, _, _, hstreaks⟩ := updateTask_ok_inv db uinput now db1 u hok
    rcases hstreaks with heq | ⟨a2, ha2, hno2, _⟩
    · exact heq
    · rw [ha] at ha2
      cases ha2
      exact absurd hno2 hne
  · intro db1 u hok
    obtain ⟨_, _, _, hstreaks⟩ := updateTask_ok_inv db uinput now db1 u hok
    rcases hstreaks with heq | ⟨a, ha, hno, heq⟩
    · intro tid mid
      show (db1.streaks.filter _).length ≤ 1
      rw [heq]
      exact hu tid mid
    · intro tid mid
      show (db1.streaks.filter _).length ≤ 1
      rw [heq]
      exact filter_pair_append_le_one db.streaks
        { id := db.nextStreakId, family_member_id := a, task_id := uinput.id,
          current_streak := 0, longest_streak := 0, last_completion_date := none,
          created_at := now, updated_at := now } hu hno tid mid

/-- Witness for C5 on the concrete empty-streak database: `createTask` seeds
the single `(0, 0, null)` row for the assignee. -/
theorem task_creation_and_reassignment_seed_streaks_witness :
    (∀ s ∈ db0.streaks, s.task_id < db0.nextTaskId) ∧ UniquePairs db0 ∧
    (createTask db0 cinpW 50).1.streaks = db0.streaks ++
      [{ id := db0.nextStreakId, family_member_id := cinpW.assigned_to,
         task_id := db0.nextTaskId, current_streak := 0, longest_streak := 0,
         last_completion_date := none, created_at := 50, updated_at := 50 }] ∧
    findStreaks (createTask db0 cinpW 50).1 (createTask db0 cinpW 50).2.id
        cinpW.assigned_to =
      [{ id := db0.nextStreakId, family_member_id := cinpW.assigned_to,
         task_id := db0.nextTaskId, current_streak := 0, longest_streak := 0,
         last_completion_date := none, created_at := 50, updated_at := 50 }] := by
  have hbound : ∀ s ∈ db0.streaks, s.task_id < db0.nextTaskId := by simp [db0]
  have hu : UniquePairs db0 := by
    intro tid mid
    simp [findStreaks, db0]
  have h := task_creation_and_reassignment_seed_streaks db0 cinpW uinpW 50 hbound hu
  exact ⟨hbound, hu, h.1.1, h.1.2.1⟩

/-- C10: a successful `updateTask` leaves family members and completions
untouched, rewrites only the task row keyed by the input id (provided
fields plus `updated_at`), keeps every pre-existing streak row, and appends
at most one seeded streak row, only for a reassignment target with no row. -/
theorem updateTask_frame (db : DB) (input : UpdateTaskInput) (now : Int)
    (db1 : DB) (u : Task) (h : updateTask db input now = Except.ok (db1, u)) :
    db1.familyMembers = db.familyMembers ∧
    db1.taskCompletions = db.taskCompletions ∧
    db1.tasks = db.tasks.map (fun t =>
      if t.id = input.id then applyTaskUpdate input now t else t) ∧
    (∀ s ∈ db.streaks, s ∈ db1.streaks) ∧
    (db1.streaks = db.streaks ∨
      ∃ a, input.assigned_to = some a ∧ findStreaks db input.id a = [] ∧
        db1.streaks = db.streaks ++
          [{ id := db.nextStreakId, family_member_id := a, task_id := input.id,
             current_streak := 0, longest_streak := 0, last_completion_date := none,
             created_at := now, updated_at := now }]) := by
  obtain ⟨h1, h2, h3, h4⟩ := updateTask_ok_inv db input now db1 u h
  refine ⟨h1, h2, h3, ?_, h4⟩
  rcases h4 with heq | ⟨a, _, _, heq⟩ <;> intro s hs <;> rw [heq]
  · exact hs
  · exact List.mem_append_left _ hs

/-- Witness for C10: the title-only update on the concrete database rewrites
the task row and leaves the other tables alone. -/
theorem updateTask_frame_witness :
    updateTask db1fix uinpW 99 = Except.ok (dbW1, taskW1) ∧
    dbW1.familyMembers = db1fix.familyMembers ∧
    dbW1.taskCompletions = db1fix.taskCompletions ∧
    dbW1.tasks = db1fix.tasks.map (fun t =>
      if t.id = uinpW.id then applyTaskUpdate uinpW 99 t else t) := by
  have hok : updateTask db1fix uinpW 99 = Except.ok (dbW1, taskW1) := rfl
  have h := updateTask_frame db1fix uinpW 99 dbW1 taskW1 hok
  exact ⟨hok, h.1, h.2.1, h.2.2.1⟩

theorem mentionsId_concat (pre post : String) (n : Nat) :
    mentionsId (pre ++ toString n ++ post) n :=
  ⟨pre.data, post.data, by simp [String.data_append]⟩

/-- C7: `verifyTaskCompletion` fails with a NotFound error naming the
completion id when no completion row matches, fails with a NotFound error
naming the verifier id when the verifier does not exist, and otherwise
unconditionally rewrites the completion's status to the requested target,
stamps `verified_by`/`verified_at`, stores the updated row, and returns it;
no other table is touched. -/
theorem verifyTaskCompletion_spec (db : DB) (input : VerifyTaskCompletionInput) (now : Int)
    (hids : db.taskCompletions.Pairwise (fun a b => a.id ≠ b.id)) :
    (db.taskCompletions.filter (fun c => c.id = input.completion_id) = [] →
      verifyTaskCompletion db input now = Except.error
        ("Task completion with id " ++ toString input.completion_id ++ " not found")) ∧
    (∀ c0 rest, db.taskCompletions.filter (fun c => c.id = input.completion_id) = c0 :: rest →
      db.familyMembers.filter (fun fm => fm.id = input.verified_by) = [] →
      verifyTaskCompletion db input now = Except.error
        ("Family member with id " ++ toString input.verified_by ++ " not found")) ∧
    (∀ c0 rest, db.taskCompletions.filter (fun c => c.id = input.completion_id) = c0 :: rest →
      (∃ fm ∈ db.familyMembers, fm.id = input.verified_by) →
      ∃ db1 c1, verifyTaskCompletion db input now = Except.ok (db1, c1) ∧
        c1 = { c0 with
               status := input.status, verified_by := some input.verified_by,
               verified_at := some now } ∧
        db1.taskCompletions = db.taskCompletions.map (fun c =>
          if c.id = input.completion_id then c1 else c) ∧
        db1.familyMembers = db.familyMembers ∧ db1.tasks = db.tasks ∧
        db1.streaks = db.streaks) := by
  refine ⟨?_, ?_, ?_⟩
  · intro h
    unfold verifyTaskCompletion
    simp only [h]
  · intro c0 rest hc hm
    unfold verifyTaskCompletion
    simp only [hc]
    rw [if_pos (by rw [hm]; rfl)]
  · intro c0 rest hc hmem
    have hm : ¬(db.familyMembers.filter (fun fm => fm.id = input.verified_by)).length = 0 := by
      apply filter_ne_nil_of_exists
      obtain ⟨fm, h1, h2⟩ := hmem
      exact ⟨fm, h1, by simp [h2]⟩
    have hc0mem : c0 ∈ db.taskCompletions ∧ c0.id = input.completion_id := by
      have hmf : c0 ∈ db.taskCompletions.filter (fun c => c.id = input.completion_id) := by
        rw [hc]
        exact List.mem_cons_self _ _
      simpa using List.mem_filter.mp hmf
    unfold verifyTaskCompletion
    simp only [hc]
    rw [if_neg hm]
    refine ⟨_, _, rfl, rfl, ?_, rfl, rfl, rfl⟩
    show db.taskCompletions.map _ = db.taskCompletions.map _
    apply List.map_congr_left
    intro c hcm
    by_cases hcid : c.id = input.completion_id
    · have hceq : c = c0 :=
        eq_of_mem_pairwise_ne (fun x => x.id) hids c hcm c0 hc0mem.1
          (by simp only []; rw [hcid, hc0mem.2])
      rw [if_pos hcid, if_pos hcid, hceq]
    · rw [if_neg hcid, if_neg hcid]

/-- Witness for C7: verifying the concrete completion in `db1fix` as
`verified` by member 1 at time 77. -/
theorem verifyTaskCompletion_spec_witness :
    db1fix.taskCompletions.Pairwise (fun a b => a.id ≠ b.id) ∧
    (∀ c0 rest,
      db1fix.taskCompletions.filter (fun c => c.id = vinpFix.completion_id) = c0 :: rest →
      (∃ fm ∈ db1fix.familyMembers, fm.id = vinpFix.verified_by) →
      ∃ db1 c1, verifyTaskCompletion db1fix vinpFix 77 = Except.ok (db1, c1) ∧
        c1 = { c0 with
               status := vinpFix.status, verified_by := some vinpFix.verified_by,
               verified_at := some 77 } ∧
        db1.taskCompletions = db1fix.taskCompletions.map (fun c =>
          if c.id = vinpFix.completion_id then c1 else c) ∧
        db1.familyMembers = db1fix.familyMembers ∧ db1.tasks = db1fix.tasks ∧
        db1.streaks = db1fix.streaks) := by
  have hids : db1fix.taskCompletions.Pairwise (fun a b => a.id ≠ b.id) := by
    simp [db1fix]
  exact ⟨hids, (verifyTaskCompletion_spec db1fix vinpFix 77 hids).2.2⟩

/-- C6 as stated is false: `getFamilyMemberStats` on the missing member id
999 fails with the message "Family member not found", which does not contain
the offending id. -/
theorem notfound_message_counterexample :
    getFamilyMemberStats db0 999 = Except.error "Family member not found" ∧
    ¬mentionsId "Family member not found" 999 := by
  refine ⟨rfl, ?_⟩
  unfold mentionsId
  decide

/-- C6 amended: `completeTask`, `updateTask`, and `verifyTaskCompletion`
NotFound errors always name the offending id in the message, while
`getFamilyMemberStats` fails with the fixed message
"Family member not found", which omits the id. -/
theorem notfound_messages_amended (db : DB) (cinp : CreateTaskCompletionInput)
    (uinp : UpdateTaskInput) (vinp : VerifyTaskCompletionInput) (mid : Nat) (now : Int) :
    (db.tasks.filter (fun t => t.id = cinp.task_id) = [] →
      ∃ msg, completeTask db cinp now = Except.error msg ∧ mentionsId msg cinp.task_id) ∧
    ((∃ t ∈ db.tasks, t.id = cinp.task_id) →
      db.familyMembers.filter (fun fm => fm.id = cinp.family_member_id) = [] →
      ∃ msg, completeTask db cinp now = Except.error msg ∧
        mentionsId msg cinp.family_member_id) ∧
    (db.tasks.filter (fun t => t.id = uinp.id) = [] →
      ∃ msg, updateTask db uinp now = Except.error msg ∧ mentionsId msg uinp.id) ∧
    (∀ currentTask rest a,
      db.tasks.filter (fun t => t.id = uinp.id) = currentTask :: rest →
      uinp.assigned_to = some a → a ≠ currentTask.assigned_to →
      db.familyMembers.filter (fun fm => fm.id = a) = [] →
      ∃ msg, updateTask db uinp now = Except.error msg ∧ mentionsId msg a) ∧
    (db.taskCompletions.filter (fun c => c.id = vinp.completion_id) = [] →
      ∃ msg, verifyTaskCompletion db vinp now = Except.error msg ∧
        mentionsId msg vinp.completion_id) ∧
    (∀ c0 rest, db.taskCompletions.filter (fun c => c.id = vinp.completion_id) = c0 :: rest →
      db.familyMembers.filter (fun fm => fm.id = vinp.verified_by) = [] →
      ∃ msg, verifyTaskCompletion db vinp now = Except.error msg ∧
        mentionsId msg vinp.verified_by) ∧
    (db.familyMembers.filter (fun fm => fm.id = mid) = [] →
      getFamilyMemberStats db mid = Except.error "Family member not found") := by
  refine ⟨?_, ?_, ?_, ?_, ?_, ?_, ?_⟩
  · intro h
    refine ⟨_, ?_, mentionsId_concat "Task with id " " not found" cinp.task_id⟩
    unfold completeTask
    rw [if_pos (by rw [h]; rfl)]
  · intro htask h
    have ht : ¬(db.tasks.filter (fun t => t.id = cinp.task_id)).length = 0 := by
      apply filter_ne_nil_of_exists
      obtain ⟨t, h1, h2⟩ := htask
      exact ⟨t, h1, by simp [h2]⟩
    refine ⟨_, ?_, mentionsId_concat "Family member with id " " not found"
      cinp.family_member_id⟩
    unfold completeTask
    rw [if_neg ht, if_pos (by rw [h]; rfl)]
  · intro h
    refine ⟨_, ?_, mentionsId_concat "Task with id " " not found" uinp.id⟩
    unfold updateTask
    simp only [h]
  · intro currentTask rest a hcur ha hne hm
    refine ⟨_, ?_, mentionsId_concat "Family member with id " " not found" a⟩
    unfold updateTask
    simp only [hcur]
    rw [if_pos ⟨by unfold isReassignment; rw [ha]; exact hne, by rw [ha]; simp [hm]⟩]
    rw [ha]
    simp
  · intro h
    refine ⟨_, ?_, mentionsId_concat "Task completion with id " " not found"
      vinp.completion_id⟩
    unfold verifyTaskCompletion
    simp only [h]
  · intro c0 rest hc hm
    refine ⟨_, ?_, mentionsId_concat "Family member with id " " not found" vinp.verified_by⟩
    unfold verifyTaskCompletion
    simp only [hc]
    rw [if_pos (by rw [hm]; rfl)]
  · intro h
    unfold getFamilyMemberStats
    simp only [h]

/-- Witness for the amended C6: a completion request against the missing
task id 42 yields a message mentioning 42. -/
theorem notfound_messages_amended_witness :
    db0.tasks.filter (fun t => t.id = cinpBad.task_id) = [] ∧
    (∃ msg, completeTask db0 cinpBad 0 = Except.error msg ∧
      mentionsId msg cinpBad.task_id) := by
  refine ⟨by decide, ?_⟩
  exact (notfound_messages_amended db0 cinpBad uinpW vinpFix 999 0).1 (by decide)

/-- Filtering a pairwise-unique-key list for one key value yields either
nothing (and no element has the key) or exactly the one matching element. -/
theorem filter_by_key_cases {α : Type} (key : α → Nat) (l : List α)
    (hids : l.Pairwise (fun a b => key a ≠ key b)) (x : Nat) :
    (l.filter (fun t => x = key t) = [] ∧ ∀ t ∈ l, key t ≠ x) ∨
    ∃ t0, t0 ∈ l ∧ key t0 = x ∧ l.filter (fun t => x = key t) = [t0] := by
  induction l with
  | nil => exact Or.inl ⟨rfl, by simp⟩
  | cons t ts ih =>
    rw [List.pairwise_cons] at hids
    by_cases hx : x = key t
    · refine Or.inr ⟨t, List.mem_cons_self _ _, hx.symm, ?_⟩
      have hrest : ts.filter (fun u => x = key u) = [] := by
        rw [List.filter_eq_nil_iff]
        intro u hu
        simp only [decide_eq_true_eq]
        rw [hx]
        exact hids.1 u hu
      rw [List.filter_cons, if_pos (by simp [hx]), hrest]
    · rcases ih hids.2 with ⟨hnil, hall⟩ | ⟨t0, ht0, hkey, heq⟩
      · refine Or.inl ⟨?_, ?_⟩
        · simp [List.filter_cons, hx, hnil]
        · intro u hu
          rcases List.mem_cons.mp hu with rfl | hu
          · exact fun he => hx he.symm
          · exact hall u hu
      · refine Or.inr ⟨t0, List.mem_cons_of_mem _ ht0, hkey, ?_⟩
        simp [List.filter_cons, hx, heq]

/-- Joined-and-filtered row count for one completion against a
unique-id task table. -/
theorem length_filter_join_head (c : TaskCompletion) (ts : List Task)
    (hids : ts.Pairwise (fun a b => a.id ≠ b.id))
    (p : TaskCompletion → Prop) (q : Task → Prop)
    [DecidablePred p] [DecidablePred q] :
    (((ts.filter (fun t => c.task_id = t.id)).map (fun t => (c, t))).filter
        (fun ct => p ct.1 ∧ q ct.2)).length =
      if p c ∧ ∃ t ∈ ts, t.id = c.task_id ∧ q t then 1 else 0 := by
  rcases filter_by_key_cases (fun t => t.id) ts hids c.task_id with ⟨hnil, hall⟩ | ⟨t0, ht0, hkey, heq⟩
  · rw [hnil]
    simp only [List.map_nil, List.filter_nil, List.length_nil]
    rw [if_neg]
    rintro ⟨_, t, ht, hid, _⟩
    exact hall t ht hid
  · rw [heq]
    simp only [List.map_cons, List.map_nil]
    by_cases hpq : p c ∧ q t0
    · rw [if_pos ⟨hpq.1, t0, ht0, hkey, hpq.2⟩]
      simp [List.filter_cons, hpq.1, hpq.2]
    · rw [if_neg ?_]
      · rcases not_and_or.mp hpq with hnp | hnq
        · simp [List.filter_cons, hnp]
        · simp [List.filter_cons, hnq]
      · rintro ⟨hp, t, ht, hid, hq⟩
        have : t = t0 := eq_of_mem_pairwise_ne (fun u => u.id) hids t ht t0 ht0
          (by simp only []; rw [hid, hkey])
        subst this
        exact hpq ⟨hp, hq⟩

/-- Counting joined completion/task rows that pass per-side predicates equals
counting completions whose (unique) task passes the task-side predicate. -/
theorem length_filter_join (cs : List TaskCompletion) (ts : List Task)
    (hids : ts.Pairwise (fun a b => a.id ≠ b.id))
    (p : TaskCompletion → Prop) (q : Task → Prop)
    [DecidablePred p] [DecidablePred q] :
    ((cs.flatMap (fun c => (ts.filter (fun t => c.task_id = t.id)).map (fun t => (c, t)))).filter
        (fun ct => p ct.1 ∧ q ct.2)).length =
      cs.countP (fun c => p c ∧ ∃ t ∈ ts, t.id = c.task_id ∧ q t) := by
  induction cs with
  | nil => rfl
  | cons c cs ih =>
    rw [List.flatMap_cons, List.filter_append, List.length_append, ih, List.countP_cons,
      length_filter_join_head c ts hids p q]
    by_cases h : p c ∧ ∃ t ∈ ts, t.id = c.task_id ∧ q t
    · simp [h]
      omega
    · simp [h]

/-- C8: for an existing family member, `getFamilyMemberStats` reports
`completion_rate = round(100 * n / d)` where `n` counts the member's
`completed` completions whose task is active and assigned to the member, and
`d` counts the member's active assigned tasks; the rate is 0 when `d = 0`. -/
theorem completion_rate_formula (db : DB) (m : Nat)
    (htids : db.tasks.Pairwise (fun a b => a.id ≠ b.id))
    (hmem : ∃ fm ∈ db.familyMembers, fm.id = m) :
    ∃ stats, getFamilyMemberStats db m = Except.ok stats ∧
      stats.completion_rate =
        (if (db.tasks.countP (fun t => t.assigned_to = m ∧ t.is_active = true)) = 0 then 0
         else jsRound (100 *
           (db.taskCompletions.countP (fun c => c.family_member_id = m ∧
              c.status = TaskStatus.completed ∧
              ∃ t ∈ db.tasks, t.id = c.task_id ∧ t.assigned_to = m ∧
                t.is_active = true) : ℚ) /
           (db.tasks.countP (fun t => t.assigned_to = m ∧ t.is_active = true) : ℚ))) := by
  have hne : db.familyMembers.filter (fun fm => fm.id = m) ≠ [] := by
    rw [Ne, List.filter_eq_nil_iff]
    push_neg
    obtain ⟨fm, h1, h2⟩ := hmem
    exact ⟨fm, h1, by simp [h2]⟩
  obtain ⟨fm0, rest, hfm⟩ := List.exists_cons_of_ne_nil hne
  unfold getFamilyMemberStats
  simp only [hfm]
  refine ⟨_, rfl, ?_⟩
  show (if 0 < (db.tasks.filter (fun t => t.assigned_to = m ∧ t.is_active = true)).length
      then jsRound
        ((((completionsWithTasks db).filter (fun ct =>
            ct.1.family_member_id = m ∧ ct.1.status = TaskStatus.completed ∧
              ct.2.assigned_to = m ∧ ct.2.is_active = true)).length : ℚ) /
          (((db.tasks.filter (fun t => t.assigned_to = m ∧ t.is_active = true)).length : ℚ)) * 100)
      else 0) = _
  have hjoin : ((completionsWithTasks db).filter (fun ct =>
      ct.1.family_member_id = m ∧ ct.1.status = TaskStatus.completed ∧
        ct.2.assigned_to = m ∧ ct.2.is_active = true)).length =
      db.taskCompletions.countP (fun c => c.family_member_id = m ∧
        c.status = TaskStatus.completed ∧
        ∃ t ∈ db.tasks, t.id = c.task_id ∧ t.assigned_to = m ∧ t.is_active = true) := by
    unfold completionsWithTasks
    have hpq : (fun ct : TaskCompletion × Task =>
        decide (ct.1.family_member_id = m ∧ ct.1.status = TaskStatus.completed ∧
          ct.2.assigned_to = m ∧ ct.2.is_active = true)) =
        (fun ct : TaskCompletion × Task =>
        decide ((ct.1.family_member_id = m ∧ ct.1.status = TaskStatus.completed) ∧
          ct.2.assigned_to = m ∧ ct.2.is_active = true)) :=
      funext (fun ct => decide_eq_decide.mpr (by tauto))
    rw [hpq]
    rw [length_filter_join db.taskCompletions db.tasks htids
      (fun c => c.family_member_id = m ∧ c.status = TaskStatus.completed)
      (fun t => t.assigned_to = m ∧ t.is_active = true)]
    exact List.countP_congr (fun c _ => by
      constructor
      · intro hc
        simp only [decide_eq_true_eq] at hc ⊢
        tauto
      · intro hc
        simp only [decide_eq_true_eq] at hc ⊢
        tauto)
  rw [hjoin, List.countP_eq_length_filter (fun t =>
    decide (t.assigned_to = m ∧ t.is_active = true)) db.tasks]
  set n := db.taskCompletions.countP (fun c => c.family_member_id = m ∧
    c.status = TaskStatus.completed ∧
    ∃ t ∈ db.tasks, t.id = c.task_id ∧ t.assigned_to = m ∧ t.is_active = true) with hn
  set d := (db.tasks.filter (fun t => t.assigned_to = m ∧ t.is_active = true)).length with hd
  by_cases hdz : d = 0
  · simp [hdz]
  · rw [if_pos (Nat.pos_of_ne_zero hdz), if_neg hdz]
    congr 1
    ring

/-- Witness for C8: on the concrete one-completion database the rate is
`round(100 * 1 / 1)`. -/
theorem completion_rate_formula_witness :
    db1fix.tasks.Pairwise (fun a b => a.id ≠ b.id) ∧
    (∃ fm ∈ db1fix.familyMembers, fm.id = 1) ∧
    (∃ stats, getFamilyMemberStats db1fix 1 = Except.ok stats ∧
      stats.completion_rate =
        (if (db1fix.tasks.countP (fun t => t.assigned_to = 1 ∧ t.is_active = true)) = 0 then 0
         else jsRound (100 *
           (db1fix.taskCompletions.countP (fun c => c.family_member_id = 1 ∧
              c.status = TaskStatus.completed ∧
              ∃ t ∈ db1fix.tasks, t.id = c.task_id ∧ t.assigned_to = 1 ∧
                t.is_active = true) : ℚ) /
           (db1fix.tasks.countP (fun t => t.assigned_to = 1 ∧ t.is_active = true) : ℚ)))) := by
  have htids : db1fix.tasks.Pairwise (fun a b => a.id ≠ b.id) := by simp [db1fix]
  have hmem : ∃ fm ∈ db1fix.familyMembers, fm.id = 1 := ⟨fmA, by decide⟩
  exact ⟨htids, hmem, completion_rate_formula db1fix 1 htids hmem⟩

/-- With foreign keys intact and unique task/member ids, the inner joins of
`getTaskCompletions` neither drop nor duplicate completion rows. -/
theorem joinedCompletions_eq (db : DB)
    (htids : db.tasks.Pairwise (fun a b => a.id ≠ b.id))
    (hmids : db.familyMembers.Pairwise (fun a b => a.id ≠ b.id))
    (hfk : ∀ c ∈ db.taskCompletions,
      (∃ t ∈ db.tasks, t.id = c.task_id) ∧
      (∃ fm ∈ db.familyMembers, fm.id = c.family_member_id)) :
    joinedCompletions db = db.taskCompletions := by
  unfold joinedCompletions
  have hcong : ∀ c ∈ db.taskCompletions,
      ((db.tasks.filter (fun t => c.task_id = t.id)).flatMap (fun _t =>
        (db.familyMembers.filter (fun fm => c.family_member_id = fm.id)).map
          (fun _fm => c))) = [c] := by
    intro c hc
    obtain ⟨⟨t, ht, htid⟩, fm, hf, hfid⟩ := hfk c hc
    rcases filter_by_key_cases (fun u => u.id) db.tasks htids c.task_id with
      ⟨_, hall⟩ | ⟨t0, _, _, heqt⟩
    · exact absurd htid (hall t ht)
    · rcases filter_by_key_cases (fun u => u.id) db.familyMembers hmids c.family_member_id with
        ⟨_, hallm⟩ | ⟨fm0, _, _, heqm⟩
      · exact absurd hfid (hallm fm hf)
      · rw [heqt, heqm]
        rfl
  have hstep : db.taskCompletions.flatMap (fun c =>
      (db.tasks.filter (fun t => c.task_id = t.id)).flatMap (fun _t =>
        (db.familyMembers.filter (fun fm => c.family_member_id = fm.id)).map
          (fun _fm => c))) =
      db.taskCompletions.flatMap (fun c => [c]) := List.flatMap_congr hcong
  rw [hstep]
  exact List.flatMap_singleton' _

/-- C9: `getTaskCompletions` returns exactly the completion rows passing the
given optional filters — in particular `completed_at` within the inclusive
`date_from`/`date_to` range, each bound applied only when given — as a
permutation of the filtered table, sorted by `completed_at` descending. -/
theorem getTaskCompletions_date_range_sorted (db : DB) (input : GetTaskCompletionsInput)
    (htids : db.tasks.Pairwise (fun a b => a.id ≠ b.id))
    (hmids : db.familyMembers.Pairwise (fun a b => a.id ≠ b.id))
    (hfk : ∀ c ∈ db.taskCompletions,
      (∃ t ∈ db.tasks, t.id = c.task_id) ∧
      (∃ fm ∈ db.familyMembers, fm.id = c.family_member_id)) :
    (getTaskCompletions db input).Perm
      (db.taskCompletions.filter (fun c => matchesCompletionFilters input c)) ∧
    (getTaskCompletions db input).Pairwise (fun a b => b.completed_at ≤ a.completed_at) := by
  constructor
  · have hp : (getTaskCompletions db input).Perm
        ((joinedCompletions db).filter (fun c => matchesCompletionFilters input c)) :=
      List.mergeSort_perm _ _
    rwa [joinedCompletions_eq db htids hmids hfk] at hp
  · have htrans : ∀ a b c : TaskCompletion,
        decide (b.completed_at ≤ a.completed_at) = true →
        decide (c.completed_at ≤ b.completed_at) = true →
        decide (c.completed_at ≤ a.completed_at) = true := by
      intro a b c hab hbc
      simp only [decide_eq_true_eq] at hab hbc ⊢
      exact le_trans hbc hab
    have htotal : ∀ a b : TaskCompletion,
        (decide (b.completed_at ≤ a.completed_at) ||
          decide (a.completed_at ≤ b.completed_at)) = true := by
      intro a b
      simp only [Bool.or_eq_true, decide_eq_true_eq]
      exact le_total b.completed_at a.completed_at
    have hs := List.sorted_mergeSort htrans htotal
      ((joinedCompletions db).filter (fun c => matchesCompletionFilters input c))
    exact hs.imp (fun hab => of_decide_eq_true hab)

/-- Witness for C9 on the concrete database: the single completion at time 5
falls inside the range [0, 10]. -/
theorem getTaskCompletions_date_range_sorted_witness :
    db1fix.tasks.Pairwise (fun a b => a.id ≠ b.id) ∧
    db1fix.familyMembers.Pairwise (fun a b => a.id ≠ b.id) ∧
    (∀ c ∈ db1fix.taskCompletions,
      (∃ t ∈ db1fix.tasks, t.id = c.task_id) ∧
      (∃ fm ∈ db1fix.familyMembers, fm.id = c.family_member_id)) ∧
    (getTaskCompletions db1fix inpGTC).Perm
      (db1fix.taskCompletions.filter (fun c => matchesCompletionFilters inpGTC c)) ∧
    (getTaskCompletions db1fix inpGTC).Pairwise (fun a b => b.completed_at ≤ a.completed_at) := by
  have htids : db1fix.tasks.Pairwise (fun a b => a.id ≠ b.id) := by simp [db1fix]
  have hmids : db1fix.familyMembers.Pairwise (fun a b => a.id ≠ b.id) := by simp [db1fix]
  have hfk : ∀ c ∈ db1fix.taskCompletions,
      (∃ t ∈ db1fix.tasks, t.id = c.task_id) ∧
      (∃ fm ∈ db1fix.familyMembers, fm.id = c.family_member_id) := by
    intro c hc
    simp only [db1fix, List.mem_singleton] at hc
    subst hc
    exact ⟨⟨taskA, by decide⟩, ⟨fmA, by decide⟩⟩
  obtain ⟨h1, h2⟩ := getTaskCompletions_date_range_sorted db1fix inpGTC htids hmids hfk
  exact ⟨htids, hmids, hfk, h1, h2⟩

end ChoreTracker

